import Mathlib

/-!
Verification development for the Cosmos VS Code extension's memory-introspection
subsystem.

The definitions below are shallow embeddings of the TypeScript source:

* `leVal`/`readLE` model Node.js `Buffer.readUIntLE`-family reads (a read past
  the end of the buffer throws, modelled as `none`).
* `decodeBuffer` embeds `readAndParseBufferFromFile` (the pure parsing part;
  the shared-memory and QMP parsers are textually identical).
* `parseHexDump`/`scanHex` embed `QMPClient.parseHexDump` and its regex scan.
* `splitNl`/`processChunk`/`handleLine` embed `QMPClient.processResponses`.
* `ClientState`/`clientStep`/`clientRun` embed the pending-request table
  dynamics of `QMPClient.sendCommand` and its response/timeout handlers.
* `qmpTick`/`shmTick` embed `requestMemoryData` of the two polling variants,
  with this tick's external outcomes (resolution result, read result, file
  existence) passed as parameters and user-visible effects made explicit.
* `updateWebview`/`updateCellsLoop` embed the publisher `updateWebview` and
  the webview script's `updateMemoryData` cell diff.
-/

set_option maxHeartbeats 1000000
set_option maxRecDepth 100000

/-! ## Byte-level reads (Node `Buffer` little-endian semantics) -/

/-- Little-endian value of `n` bytes of `buf` starting at `off`
(bytes past the end read as 0; `readLE` rules that case out). -/
def leVal (buf : List Nat) : Nat → Nat → Nat
  | _, 0 => 0
  | off, n+1 => buf.getD off 0 + 256 * leVal buf (off+1) n

/-- Node `buf.readUIntLE(off, n)` / `readBigUInt64LE` / `readUInt32LE` /
`readUInt8`: returns the little-endian value, or fails (throws
`ERR_OUT_OF_RANGE`) when the read would go past the end of the buffer. -/
def readLE (buf : List Nat) (off n : Nat) : Option Nat :=
  if off + n ≤ buf.length then some (leVal buf off n) else none

/-! ## Constants from the kernel (part_008 lines 40-42 / 1043-1045) -/

def MAGIC_NUMBER : Nat := 0x434F534D4F53

def MAX_LIMINE_ENTRIES : Nat := 64

def MAX_RAT_SAMPLE : Nat := 1000

/-- `8 + 4 + 8 + 4 + (MAX_LIMINE_ENTRIES * 3 * 8) + 8*6 + 4 + MAX_RAT_SAMPLE`
(part_008 line 1210). -/
def totalBufferSize : Nat :=
  8 + 4 + 8 + 4 + (MAX_LIMINE_ENTRIES * 3 * 8) + 8 + 8 + 8 + 8 + 8 + 8 + 4 + MAX_RAT_SAMPLE

/-- `'0x' + v.toString(16).toUpperCase()` on a BigInt value. -/
def hexUpper (n : Nat) : String :=
  "0x" ++ ((Nat.toDigits 16 n).map Char.toUpper).asString

/-- `getPageTypeName` (part_008 lines 1597-1610): unknown tags map to
`"Unknown"` rather than failing. -/
def getPageTypeName (t : Nat) : String :=
  match t with
  | 0 => "Empty"
  | 3 => "HeapSmall"
  | 5 => "HeapMedium"
  | 7 => "HeapLarge"
  | 9 => "Unmanaged"
  | 11 => "PageDirectory"
  | 32 => "RAT"
  | 64 => "SMT"
  | 128 => "Extension"
  | _ => "Unknown"

/-- `getLimineTypeName` (part_008 lines 1612-1624). -/
def getLimineTypeName (t : Nat) : String :=
  match t with
  | 0 => "Usable"
  | 1 => "Reserved"
  | 2 => "ACPI Reclaimable"
  | 3 => "ACPI NVS"
  | 4 => "Bad Memory"
  | 5 => "Bootloader Reclaimable"
  | 6 => "Kernel and Modules"
  | 7 => "Framebuffer"
  | _ => "Unknown"

/-! ## Decoded snapshot data model (part_008 lines 1072-1106) -/

structure LimineMemoryEntry where
  base : String
  length : Nat
  type : Nat
  typeName : String
deriving DecidableEq, Repr

structure MemoryPage where
  index : Nat
  address : String
  size : Nat
  pageType : Nat
  pageTypeName : String
deriving DecidableEq, Repr

structure PageAllocatorState where
  ramStart : String
  heapEnd : String
  ratLocation : String
  ramSize : Nat
  totalPageCount : Nat
  freePageCount : Nat
  usedPageCount : Int
  pages : List MemoryPage
deriving DecidableEq, Repr

structure MemoryState where
  limineMemoryMap : List LimineMemoryEntry
  pageAllocator : PageAllocatorState
  lastUpdated : Nat
deriving DecidableEq, Repr

inductive DecodeError where
  /-- A Node buffer read past the end of the file contents threw. -/
  | outOfRange
  /-- `magic !== MAGIC_NUMBER` (part_008 lines 1225-1227). -/
  | badMagic (got : Nat)
deriving DecidableEq, Repr

/-- One iteration of the Limine entry loop (part_008 lines 1233-1244):
entry `i` is read at offset `24 + i*24`. -/
def readLimineEntry (buf : List Nat) (off : Nat) : Option LimineMemoryEntry :=
  match readLE buf off 8, readLE buf (off+8) 8, readLE buf (off+16) 8 with
  | some base, some len, some ty =>
      some { base := hexUpper base, length := len, type := ty,
             typeName := getLimineTypeName ty }
  | _, _, _ => none

/-- The Limine entry loop `for (i = 0; i < count && i < MAX_LIMINE_ENTRIES; i++)`,
reading `fuel` entries starting at index `i`. -/
def readEntriesFrom (buf : List Nat) : Nat → Nat → Option (List LimineMemoryEntry)
  | _, 0 => some []
  | i, fuel+1 =>
    match readLimineEntry buf (24 + i * 24), readEntriesFrom buf (i+1) fuel with
    | some e, some rest => some (e :: rest)
    | _, _ => none

/-- One iteration of the RAT sample loop (part_008 lines 1261-1271): the tag of
page `i` is `buffer.readUInt8(offset + i)` with `offset = 1612`, and the
address is derived as `ramStart + i*4096`. -/
def readRatPage (buf : List Nat) (ramStart i : Nat) : Option MemoryPage :=
  match readLE buf (1612 + i) 1 with
  | some t =>
      some { index := i, address := hexUpper (ramStart + i * 4096), size := 4096,
             pageType := t, pageTypeName := getPageTypeName t }
  | none => none

/-- The RAT sample loop `for (i = 0; i < count && i < MAX_RAT_SAMPLE; i++)`. -/
def readPagesFrom (buf : List Nat) (ramStart : Nat) : Nat → Nat → Option (List MemoryPage)
  | _, 0 => some []
  | i, fuel+1 =>
    match readRatPage buf ramStart i, readPagesFrom buf ramStart (i+1) fuel with
    | some p, some rest => some (p :: rest)
    | _, _ => none

/-- The pure core of `readAndParseBufferFromFile` (part_008 lines 1208-1290):
reads are performed in source order (header, magic check, Limine map with the
count clamped by the loop condition, skip to the fixed offset 1560, allocator
scalars, RAT sample with the count clamped by the loop condition).  `now`
stands for `Date.now()` stored into `lastUpdated`. -/
def decodeBuffer (now : Nat) (buf : List Nat) : Except DecodeError MemoryState :=
  match readLE buf 0 8, readLE buf 8 4, readLE buf 12 8 with
  | some magic, some _version, some _timestamp =>
    if magic = MAGIC_NUMBER then
      match readLE buf 20 4 with
      | some limineEntryCount =>
        match readEntriesFrom buf 0 (min limineEntryCount MAX_LIMINE_ENTRIES) with
        | some limineMemoryMap =>
          match readLE buf 1560 8, readLE buf 1568 8, readLE buf 1576 8,
                readLE buf 1584 8, readLE buf 1592 8, readLE buf 1600 8 with
          | some ramStart, some heapEnd, some ratLocation, some ramSize,
            some totalPageCount, some freePageCount =>
            match readLE buf 1608 4 with
            | some ratSampleCount =>
              match readPagesFrom buf ramStart 0 (min ratSampleCount MAX_RAT_SAMPLE) with
              | some pages =>
                Except.ok
                  { limineMemoryMap := limineMemoryMap,
                    pageAllocator :=
                      { ramStart := hexUpper ramStart,
                        heapEnd := hexUpper heapEnd,
                        ratLocation := hexUpper ratLocation,
                        ramSize := ramSize,
                        totalPageCount := totalPageCount,
                        freePageCount := freePageCount,
                        usedPageCount := (totalPageCount : Int) - (freePageCount : Int),
                        pages := pages },
                    lastUpdated := now }
              | none => Except.error .outOfRange
            | none => Except.error .outOfRange
          | _, _, _, _, _, _ => Except.error .outOfRange
        | none => Except.error .outOfRange
      | none => Except.error .outOfRange
    else Except.error (.badMagic magic)
  | _, _, _ => Except.error .outOfRange

/-! ## Monitor-channel hex-dump parsing (execution.ts lines 177-193)

`parseHexDump` repeatedly applies the JavaScript regex `/0x([0-9a-fA-F]{2})/g`
to the monitor's reply text.  `exec` with the `g` flag yields the successive
leftmost non-overlapping matches; `scanHex` mirrors that scan: at each
position, `0x` followed by two hex digits is a match (consuming all four
characters), otherwise the scan advances one character. -/

def isHexDigitChar (c : Char) : Bool :=
  (decide ('0' ≤ c) && decide (c ≤ '9')) ||
  (decide ('a' ≤ c) && decide (c ≤ 'f')) ||
  (decide ('A' ≤ c) && decide (c ≤ 'F'))

/-- `parseInt(d, 16)` of one hex digit. -/
def hexDigitVal (c : Char) : Nat :=
  if decide ('0' ≤ c) && decide (c ≤ '9') then c.toNat - '0'.toNat
  else if decide ('a' ≤ c) && decide (c ≤ 'f') then c.toNat - 'a'.toNat + 10
  else if decide ('A' ≤ c) && decide (c ≤ 'F') then c.toNat - 'A'.toNat + 10
  else 0

/-- Does a match (`x` then two hex digits) continue right after a `'0'`? -/
def isMatchTail : List Char → Bool
  | 'x' :: h1 :: h2 :: _ => isHexDigitChar h1 && isHexDigitChar h2
  | _ => false

/-- The captured byte value of a match whose `'0'` was just consumed. -/
def tailByte : List Char → Nat
  | _ :: h1 :: h2 :: _ => 16 * hexDigitVal h1 + hexDigitVal h2
  | _ => 0

/-- The regex scan, one character per step: `skip` characters belonging to the
previous match are passed over; at a match (`'0'` followed by `x`, hex, hex)
the byte is emitted and the remaining three match characters are skipped
(the scan resumes after the whole match, so matches never overlap); otherwise
the scan advances one character, exactly like `exec` retrying at the next
start position. -/
def scanHexSkip : Nat → List Char → List Nat
  | _, [] => []
  | k+1, _ :: rest => scanHexSkip k rest
  | 0, c0 :: rest =>
    if c0 = '0' && isMatchTail rest then tailByte rest :: scanHexSkip 3 rest
    else scanHexSkip 0 rest

/-- Successive matches of `/0x([0-9a-fA-F]{2})/g`, in order. -/
def scanHex (l : List Char) : List Nat :=
  scanHexSkip 0 l

/-- `QMPClient.parseHexDump(output, expectedSize)`: every `0xHH` match is
collected, then `bytes.slice(0, expectedSize)` truncates (a short result is
only logged, not padded). -/
def parseHexDump (output : String) (expectedSize : Nat) : List Nat :=
  (scanHex output.toList).take expectedSize

/-! ## QMP response framing (execution.ts lines 105-132)

`processResponses` does `lines = this.responseBuffer.split('\n')` and
`this.responseBuffer = lines.pop()`: every complete (newline-terminated) line
is dispatched, and the text after the last newline is retained.  `splitNl`
is JavaScript `split('\n')` on the character list. -/

def splitNl : List Char → List (List Char)
  | [] => [[]]
  | c :: rest =>
    if c = '\n' then [] :: splitNl rest
    else
      match splitNl rest with
      | [] => [[c]]
      | l :: ls => (c :: l) :: ls

/-- One `data` event: append the chunk to the retained buffer, split on
newlines, keep the final fragment, dispatch the complete lines.
Returns (new retained buffer, complete lines in order). -/
def processChunk (resBuffer chunk : List Char) : List Char × List (List Char) :=
  ((splitNl (resBuffer ++ chunk)).getLastD [], (splitNl (resBuffer ++ chunk)).dropLast)

/-- What a dispatched line means to the request table: a `{return, id}`
response, an `{error, id}` response, a parsed object with no matching shape,
or text `JSON.parse` rejects (the catch logs and continues). -/
inductive ParsedLine where
  | ret (id : Nat)
  | err (id : Nat)
  | other
  | invalid
deriving DecidableEq, Repr

/-- `processResponses` line dispatch on the pending-request table
(`Map<number, {resolve, reject}>`, modelled as an association list with the
callback pair abstracted to `α`): a response whose id has a pending entry
completes it (`true` = resolved, `false` = rejected) and deletes the entry;
anything else leaves the table untouched. -/
def handleLine {α : Type} (pending : List (Nat × α)) :
    ParsedLine → List (Nat × α) × Option (Nat × Bool)
  | .ret id =>
    match pending.lookup id with
    | some _ => (pending.filter (fun e => e.1 != id), some (id, true))
    | none => (pending, none)
  | .err id =>
    match pending.lookup id with
    | some _ => (pending.filter (fun e => e.1 != id), some (id, false))
    | none => (pending, none)
  | .other => (pending, none)
  | .invalid => (pending, none)

/-- The 10-second timeout callback of `sendCommand` (execution.ts lines
150-155): if the id is still pending, delete it and reject; otherwise do
nothing.  The socket/connection is not touched. -/
def timeoutFire {α : Type} (pending : List (Nat × α)) (id : Nat) :
    List (Nat × α) × Option (Nat × Bool) :=
  match pending.lookup id with
  | some _ => (pending.filter (fun e => e.1 != id), some (id, false))
  | none => (pending, none)

/-- The `QMPClient` request-table state: `nextId` (starts at 1, incremented
per send), the pending table, and the `connected` flag. -/
structure ClientState (α : Type) where
  nextId : Nat
  pending : List (Nat × α)
  connected : Bool
deriving Repr

/-- Events the single-threaded event loop can deliver to the client:
`sendCommand` registering a fresh id, an incoming dispatched line, or a
request timeout firing. -/
inductive ClientEvent (α : Type) where
  | send (payload : α)
  | line (p : ParsedLine)
  | timeout (id : Nat)

/-- One event step; the second component lists the completions (id, resolved?)
this step performs. -/
def clientStep {α : Type} (s : ClientState α) :
    ClientEvent α → ClientState α × List (Nat × Bool)
  | .send a =>
    ({ s with nextId := s.nextId + 1, pending := s.pending ++ [(s.nextId, a)] }, [])
  | .line p =>
    let r := handleLine s.pending p
    ({ s with pending := r.1 }, r.2.toList)
  | .timeout id =>
    let r := timeoutFire s.pending id
    ({ s with pending := r.1 }, r.2.toList)

/-- Run a sequence of events, collecting all completions in order. -/
def clientRun {α : Type} (s : ClientState α) :
    List (ClientEvent α) → ClientState α × List (Nat × Bool)
  | [] => (s, [])
  | e :: es =>
    let r := clientStep s e
    let rest := clientRun r.1 es
    (rest.1, r.2 ++ rest.2)

/-- A fresh connection: `nextId = 1`, empty table (execution.ts lines 50-51). -/
def initialClient (α : Type) : ClientState α :=
  { nextId := 1, pending := [], connected := false }

/-! ## Polling tick models (part_008)

`requestMemoryData` of each variant, as a function of the module state and of
this tick's external outcomes.  User-visible effects are made explicit. -/

/-- Externally visible effects of one tick. -/
structure TickEffects where
  /-- `vscode.window.showErrorMessage` was called. -/
  showedError : Bool
  /-- A decoded snapshot was stored and pushed to the webview. -/
  published : Bool
deriving DecidableEq, Repr

/-- Module-level state of the QMP variant (part_008 lines 105-110). -/
structure QmpState where
  currentMemoryState : Option MemoryState
  debugBufferAddress : Option Nat
  isLive : Bool
  timerSet : Bool
deriving DecidableEq, Repr

/-- The read-and-parse phase of the QMP `requestMemoryData` (part_008 lines
185-206): `readBytes = none` models a connection/read failure
(`ensureQmpConnection`/`readMemory` threw); otherwise the bytes are parsed.
Any throw lands in the catch block, which calls
`vscode.window.showErrorMessage` (line 202) and does not stop polling. -/
def qmpReadPhase (now : Nat) (s : QmpState) (readBytes : Option (List Nat)) :
    QmpState × TickEffects :=
  match readBytes with
  | none => (s, { showedError := true, published := false })
  | some bytes =>
    match decodeBuffer now bytes with
    | Except.ok st =>
      ({ s with currentMemoryState := some st }, { showedError := false, published := true })
    | Except.error _ => (s, { showedError := true, published := false })

/-- QMP-variant `requestMemoryData` (part_008 lines 165-207).  `sessionActive`
is `session && session.type === 'cppdbg'`; `resolved` is what
`getDebugBufferAddress` would find this tick (`none` = symbol not found, which
throws into the catch block); `readBytes` as in `qmpReadPhase`.  Resolution is
attempted only when no address is cached, and a successful resolution is
cached even if a later phase of the same tick fails. -/
def qmpTick (now : Nat) (s : QmpState) (sessionActive : Bool)
    (resolved : Option Nat) (readBytes : Option (List Nat)) : QmpState × TickEffects :=
  if sessionActive = false then
    if s.isLive then
      ({ s with isLive := false, timerSet := false },
       { showedError := false, published := false })
    else (s, { showedError := false, published := false })
  else
    match s.debugBufferAddress, resolved with
    | none, none => (s, { showedError := true, published := false })
    | none, some a => qmpReadPhase now { s with debugBufferAddress := some a } readBytes
    | some _, _ => qmpReadPhase now s readBytes

/-- Module-level state of the shared-memory variant (part_008 lines 1108-1112). -/
structure ShmState where
  currentMemoryState : Option MemoryState
  shmemPath : Option String
  isLive : Bool
  timerSet : Bool
deriving DecidableEq, Repr

/-- The read phase of the shared-memory `requestMemoryData` (part_008 lines
1185-1202): a missing backing file is "not ready" and returns silently; a
decode failure is caught and only logged (the catch block at lines 1198-1202
deliberately shows no popup); success stores the snapshot and updates the
webview. -/
def shmReadPhase (now : Nat) (s : ShmState) (fileExists : Bool) (fileBytes : List Nat) :
    ShmState × TickEffects :=
  if fileExists = false then (s, { showedError := false, published := false })
  else
    match decodeBuffer now fileBytes with
    | Except.ok st =>
      ({ s with currentMemoryState := some st }, { showedError := false, published := true })
    | Except.error _ => (s, { showedError := false, published := false })

/-- Shared-memory `requestMemoryData` (part_008 lines 1173-1203): the path is
looked up once and cached; an unavailable path returns silently (retried next
tick).  There is no session check and nothing in this function ever stops
polling. -/
def shmTick (now : Nat) (s : ShmState) (pathAvail : Option String)
    (fileExists : Bool) (fileBytes : List Nat) : ShmState × TickEffects :=
  match s.shmemPath, pathAvail with
  | none, none => (s, { showedError := false, published := false })
  | none, some p => shmReadPhase now { s with shmemPath := some p } fileExists fileBytes
  | some _, _ => shmReadPhase now s fileExists fileBytes

/-! ## Poll-loop overlap model (part_008 lines 118-134 / 1120-1142)

`startPolling` installs `setInterval(() => { requestMemoryData(); }, 1000)`.
The callback invokes the async `requestMemoryData` without awaiting it and
without consulting any in-flight flag (the module state above holds none), so
in the event loop every timer tick while the timer is installed starts a new
read; a read that is still awaiting its QMP response stays in flight across
ticks.  `inFlight` counts started-but-not-completed reads. -/

inductive PollEvent where
  | tick
  | readDone
deriving DecidableEq, Repr

/-- One event-loop event: a timer tick (fires only while the interval timer is
installed) starts a read unconditionally; `readDone` is a read completing. -/
def pollStep (timerSet : Bool) (inFlight : Nat) : PollEvent → Nat
  | .tick => if timerSet then inFlight + 1 else inFlight
  | .readDone => inFlight - 1

/-- Fold a sequence of event-loop events. -/
def pollRun (timerSet : Bool) (inFlight : Nat) : List PollEvent → Nat
  | [] => inFlight
  | e :: es => pollRun timerSet (pollStep timerSet inFlight e) es

/-! ## Update publisher (part_008 lines 1407-1427 and webview lines 1943-2008)

`updateWebview` looks at whether the panel's current HTML contains the marker
`'pages-grid'`.  We track that membership as a `Bool` (`none` = no panel); the
full viewer HTML produced by `getMemoryWebviewContent` contains
`<div class="pages-grid">` (part_008 line 1903), so a full render sets the
flag. -/

inductive PublishOutput where
  /-- `memoryPanel.webview.html = getMemoryWebviewContent(state)`. -/
  | fullRender (st : MemoryState)
  /-- `postMessage({command:'updateData', data: state})` — the entire state. -/
  | postData (st : MemoryState)
  /-- Nothing emitted (no panel or no state yet). -/
  | nothing
deriving DecidableEq, Repr

/-- `updateWebview` (part_008 lines 1407-1427): first component is what is
emitted, second the panel-HTML marker flag afterwards. -/
def updateWebview (panelHasGrid : Option Bool) (cur : Option MemoryState) :
    PublishOutput × Option Bool :=
  match panelHasGrid, cur with
  | none, _ => (.nothing, none)
  | some g, none => (.nothing, some g)
  | some g, some st =>
    if g then (.postData st, some g)
    else (.fullRender st, some true)

/-- The webview script's per-cell update loop (part_008 lines 1984-2002):
`pa.pages.forEach((page, i) => ...)` compares `cells[i].dataset.type` (a
string) with `String(page.pageType)` and rewrites only cells whose type
changed.  Returns (new cell types, indices of rewritten cells); `i` is the
index of the first remaining cell. -/
def updateCellsLoop : List String → List MemoryPage → Nat → List String × List Nat
  | cs, [], _ => (cs, [])
  | [], _ :: _, _ => ([], [])
  | c :: cs, p :: ps, i =>
    let rest := updateCellsLoop cs ps (i+1)
    if c != toString p.pageType then (toString p.pageType :: rest.1, i :: rest.2)
    else (c :: rest.1, rest.2)

/-- The webview script's `updateMemoryData` grid update (part_008 lines
1962-2007): if the DOM cell count differs from the incoming page count the
whole grid is regenerated, otherwise only changed cells are rewritten. -/
def updateMemoryData (cells : List String) (pages : List MemoryPage) :
    List String × List Nat :=
  if cells.length != pages.length then
    (pages.map (fun p => toString p.pageType), List.range pages.length)
  else
    updateCellsLoop cells pages 0

/-! ## Concrete buffers used as inputs for the claims -/

/-- Serialize a value as `n` little-endian bytes. -/
def bytesLE : Nat → Nat → List Nat
  | _, 0 => []
  | v, n+1 => (v % 256) :: bytesLE (v / 256) n

def u64le (v : Nat) : List Nat := bytesLE v 8

def u32le (v : Nat) : List Nat := bytesLE v 4

def magicBytes : List Nat := u64le MAGIC_NUMBER

/-- A buffer long enough for the header reads but not starting with the
sentinel: decoding stops at the magic check. -/
def badMagicBuf : List Nat := List.replicate 24 0

/-- A full-size buffer with valid magic, excessive Limine and RAT counts
(5000 and 3000), and nonzero data everywhere. -/
def bigCountBuf : List Nat :=
  magicBytes ++ u32le 1 ++ u64le 0 ++ u32le 5000 ++ List.replicate 1536 7 ++
  u64le 0 ++ u64le 0 ++ u64le 0 ++ u64le 0 ++ u64le 0 ++ u64le 0 ++
  u32le 3000 ++ List.replicate 1000 3

/-- A 1612-byte buffer (shorter than `totalBufferSize`): valid magic, zero
counts, no page-sample region at all. -/
def c3buf : List Nat :=
  magicBytes ++ u32le 1 ++ u64le 0 ++ u32le 0 ++ List.replicate 1536 0 ++
  u64le 0 ++ u64le 0 ++ u64le 0 ++ u64le 0 ++ u64le 0 ++ u64le 0 ++ u32le 0

/-- The snapshot `c3buf` decodes to. -/
def c3state : MemoryState :=
  { limineMemoryMap := [],
    pageAllocator :=
      { ramStart := "0x0", heapEnd := "0x0", ratLocation := "0x0",
        ramSize := 0, totalPageCount := 0, freePageCount := 0,
        usedPageCount := 0, pages := [] },
    lastUpdated := 0 }

/-- A buffer the decoder accepts whose allocator scalars publish
`totalPageCount = 3`, `freePageCount = 5` (free exceeds total). -/
def c8buf : List Nat :=
  magicBytes ++ u32le 1 ++ u64le 0 ++ u32le 0 ++ List.replicate 1536 0 ++
  u64le 0 ++ u64le 0 ++ u64le 0 ++ u64le 0 ++ u64le 3 ++ u64le 5 ++ u32le 0

/-- The snapshot `c8buf` decodes to: `usedPageCount = 3 - 5 = -2`. -/
def c8state : MemoryState :=
  { limineMemoryMap := [],
    pageAllocator :=
      { ramStart := "0x0", heapEnd := "0x0", ratLocation := "0x0",
        ramSize := 0, totalPageCount := 3, freePageCount := 5,
        usedPageCount := -2, pages := [] },
    lastUpdated := 0 }

/-! ## Lemmas about byte reads -/

theorem leVal_append (buf extra : List Nat) :
    ∀ n off, off + n ≤ buf.length → leVal (buf ++ extra) off n = leVal buf off n := by
  intro n
  induction n with
  | zero => intro off _; rfl
  | succ n ih =>
    intro off h
    simp only [leVal]
    rw [List.getD_append _ _ _ _ (by omega), ih (off+1) (by omega)]

theorem readLE_append (buf extra : List Nat) (off n : Nat) (h : off + n ≤ buf.length) :
    readLE (buf ++ extra) off n = readLE buf off n := by
  unfold readLE
  rw [List.length_append, if_pos (by omega), if_pos h,
      leVal_append buf extra n off h]

theorem readLE_some_bound {buf : List Nat} {off n v : Nat}
    (h : readLE buf off n = some v) : off + n ≤ buf.length := by
  unfold readLE at h
  by_cases hb : off + n ≤ buf.length
  · exact hb
  · rw [if_neg hb] at h; cases h

theorem readLimineEntry_append (buf extra : List Nat) (off : Nat)
    (h : off + 24 ≤ buf.length) :
    readLimineEntry (buf ++ extra) off = readLimineEntry buf off := by
  unfold readLimineEntry
  rw [readLE_append buf extra off 8 (by omega),
      readLE_append buf extra (off+8) 8 (by omega),
      readLE_append buf extra (off+16) 8 (by omega)]

theorem readEntriesFrom_append (buf extra : List Nat) (hlen : 1560 ≤ buf.length) :
    ∀ fuel i, i + fuel ≤ 64 →
      readEntriesFrom (buf ++ extra) i fuel = readEntriesFrom buf i fuel := by
  intro fuel
  induction fuel with
  | zero => intro i _; rfl
  | succ n ih =>
    intro i h
    simp only [readEntriesFrom]
    rw [readLimineEntry_append buf extra _ (by omega), ih (i+1) (by omega)]

theorem readEntriesFrom_append_min (buf extra : List Nat) (hlen : 1560 ≤ buf.length) :
    ∀ c, readEntriesFrom (buf ++ extra) 0 (min c MAX_LIMINE_ENTRIES) =
      readEntriesFrom buf 0 (min c MAX_LIMINE_ENTRIES) := by
  intro c
  exact readEntriesFrom_append buf extra hlen _ 0
    (by simp only [MAX_LIMINE_ENTRIES]; omega)

theorem readRatPage_append (buf extra : List Nat) (r i : Nat)
    (h : 1613 + i ≤ buf.length) :
    readRatPage (buf ++ extra) r i = readRatPage buf r i := by
  unfold readRatPage
  rw [readLE_append buf extra (1612+i) 1 (by omega)]

theorem readPagesFrom_append (buf extra : List Nat) (hlen : 2612 ≤ buf.length) (r : Nat) :
    ∀ fuel i, i + fuel ≤ 1000 →
      readPagesFrom (buf ++ extra) r i fuel = readPagesFrom buf r i fuel := by
  intro fuel
  induction fuel with
  | zero => intro i _; rfl
  | succ n ih =>
    intro i h
    simp only [readPagesFrom]
    rw [readRatPage_append buf extra r i (by omega), ih (i+1) (by omega)]

theorem readPagesFrom_append_min (buf extra : List Nat) (hlen : 2612 ≤ buf.length) :
    ∀ r c, readPagesFrom (buf ++ extra) r 0 (min c MAX_RAT_SAMPLE) =
      readPagesFrom buf r 0 (min c MAX_RAT_SAMPLE) := by
  intro r c
  exact readPagesFrom_append buf extra hlen r _ 0
    (by simp only [MAX_RAT_SAMPLE]; omega)

theorem readEntriesFrom_length (buf : List Nat) :
    ∀ fuel i l, readEntriesFrom buf i fuel = some l → l.length = fuel := by
  intro fuel
  induction fuel with
  | zero =>
    intro i l h
    simp only [readEntriesFrom] at h
    cases h; rfl
  | succ n ih =>
    intro i l h
    simp only [readEntriesFrom] at h
    split at h
    · cases h
      simp only [List.length_cons]
      rw [ih (i+1) _ (by assumption)]
    · cases h

theorem readPagesFrom_length (buf : List Nat) (r : Nat) :
    ∀ fuel i l, readPagesFrom buf r i fuel = some l → l.length = fuel := by
  intro fuel
  induction fuel with
  | zero =>
    intro i l h
    simp only [readPagesFrom] at h
    cases h; rfl
  | succ n ih =>
    intro i l h
    simp only [readPagesFrom] at h
    split at h
    · cases h
      simp only [List.length_cons]
      rw [ih (i+1) _ (by assumption)]
    · cases h

theorem readPagesFrom_some_bound (buf : List Nat) (r : Nat) :
    ∀ fuel i l, 1 ≤ fuel → readPagesFrom buf r i fuel = some l →
      1613 + i + (fuel - 1) ≤ buf.length := by
  intro fuel
  induction fuel with
  | zero => intro i l h; omega
  | succ n ih =>
    intro i l _ h
    simp only [readPagesFrom] at h
    split at h
    · rename_i p rest hp hrest
      unfold readRatPage at hp
      cases hr : readLE buf (1612 + i) 1 with
      | none => rw [hr] at hp; cases hp
      | some t =>
        have hb := readLE_some_bound hr
        rcases Nat.eq_zero_or_pos n with hn | hn
        · subst hn; omega
        · have := ih (i+1) rest hn hrest
          omega
    · cases h

/-! ## Decode inversion -/

/-- Successful decoding determines the wire fields: the allocator counts are
passed through unchanged, `usedPageCount` is their difference, and map/pages
come from the two bounded loops. -/
theorem decodeBuffer_ok_inversion (now : Nat) (buf : List Nat) (st : MemoryState)
    (hok : decodeBuffer now buf = Except.ok st) :
    ∃ limCnt ratCnt ramStart,
      readLE buf 20 4 = some limCnt ∧
      readLE buf 1608 4 = some ratCnt ∧
      readLE buf 1560 8 = some ramStart ∧
      readLE buf 1592 8 = some st.pageAllocator.totalPageCount ∧
      readLE buf 1600 8 = some st.pageAllocator.freePageCount ∧
      st.pageAllocator.usedPageCount =
        (st.pageAllocator.totalPageCount : Int) - (st.pageAllocator.freePageCount : Int) ∧
      readEntriesFrom buf 0 (min limCnt MAX_LIMINE_ENTRIES) = some st.limineMemoryMap ∧
      readPagesFrom buf ramStart 0 (min ratCnt MAX_RAT_SAMPLE) = some st.pageAllocator.pages ∧
      st.lastUpdated = now := by
  unfold decodeBuffer at hok
  split at hok
  · split at hok
    · split at hok
      · split at hok
        · split at hok
          · split at hok
            · split at hok
              · cases hok
                exact ⟨_, _, _, by assumption, by assumption, by assumption,
                  by assumption, by assumption, rfl, by assumption, by assumption, rfl⟩
              · cases hok
            · cases hok
          · cases hok
        · cases hok
      · cases hok
    · cases hok
  · cases hok

theorem bytesLE_length (v n : Nat) : (bytesLE v n).length = n := by
  induction n generalizing v with
  | zero => rfl
  | succ n ih => simp [bytesLE, ih]

theorem u64le_length (v : Nat) : (u64le v).length = 8 :=
  bytesLE_length v 8

theorem u32le_length (v : Nat) : (u32le v).length = 4 :=
  bytesLE_length v 4

theorem magicBytes_length : magicBytes.length = 8 :=
  bytesLE_length _ 8

theorem bigCountBuf_length : bigCountBuf.length = totalBufferSize := by
  simp only [bigCountBuf, List.length_append, magicBytes_length, u64le_length,
             u32le_length, List.length_replicate]
  rfl

/-- C2: for every input buffer (of the fixed published size, possibly with
trailing extra bytes) whose decoded memoryMapCount exceeds 64 or whose decoded
pageSampleCount exceeds 1000, the decoder iterates at most the maximum number
of entries and never reads beyond the fixed-capacity bounds — decoding ignores
everything past the fixed 2612-byte region — and a decoded snapshot has at
most 64 memory-map entries and at most 1000 page-sample entries (this holds
for all count values, in particular the excessive ones). -/
theorem c2_decode_clamps (now : Nat) (buf extra : List Nat)
    (hlen : buf.length = totalBufferSize) :
    decodeBuffer now (buf ++ extra) = decodeBuffer now buf ∧
    ∀ st, decodeBuffer now buf = Except.ok st →
      st.limineMemoryMap.length ≤ MAX_LIMINE_ENTRIES ∧
      st.pageAllocator.pages.length ≤ MAX_RAT_SAMPLE := by
  have hl : buf.length = 2612 := by rw [hlen]; rfl
  constructor
  · unfold decodeBuffer
    rw [readLE_append buf extra 0 8 (by omega), readLE_append buf extra 8 4 (by omega),
        readLE_append buf extra 12 8 (by omega), readLE_append buf extra 20 4 (by omega),
        readLE_append buf extra 1560 8 (by omega), readLE_append buf extra 1568 8 (by omega),
        readLE_append buf extra 1576 8 (by omega), readLE_append buf extra 1584 8 (by omega),
        readLE_append buf extra 1592 8 (by omega), readLE_append buf extra 1600 8 (by omega),
        readLE_append buf extra 1608 4 (by omega)]
    simp only [readEntriesFrom_append_min buf extra (by omega),
               readPagesFrom_append_min buf extra (by omega)]
  · intro st hok
    obtain ⟨limCnt, ratCnt, ramStart, _, _, _, _, _, _, hent, hpag, _⟩ :=
      decodeBuffer_ok_inversion now buf st hok
    constructor
    · rw [readEntriesFrom_length buf _ _ _ hent]
      exact Nat.min_le_right _ _
    · rw [readPagesFrom_length buf ramStart _ _ _ hpag]
      exact Nat.min_le_right _ _

/-- Witness for `c2_decode_clamps` at a concrete full-size buffer whose
Limine count (5000) and RAT sample count (3000) both exceed the maxima. -/
theorem c2_decode_clamps_witness :
    decodeBuffer 0 (bigCountBuf ++ [7]) = decodeBuffer 0 bigCountBuf :=
  (c2_decode_clamps 0 bigCountBuf [7] bigCountBuf_length).1

/-- C1: the spec expects `parseHexDump "0x1000: 0xDE 0xAD 0xBE 0xEF"` with
requested size 4 to yield `[0xDE, 0xAD, 0xBE, 0xEF]`; evaluating the code at
exactly that input shows the regex also matches the first two hex digits of
the `0x`-prefixed address (`0x10`), shifting the data bytes and dropping
`0xEF`, so the function returns `[0x10, 0xDE, 0xAD, 0xBE]`. -/
theorem c1_parseHexDump_eval :
    parseHexDump "0x1000: 0xDE 0xAD 0xBE 0xEF" 4 = [0x10, 0xDE, 0xAD, 0xBE] := by
  decide

/-- C3 counterexample: a 1612-byte buffer — shorter than the fixed total
size 2612 — with valid magic and zero counts decodes to a complete snapshot
instead of returning a truncated-buffer error. -/
theorem c3_counterexample :
    c3buf.length < totalBufferSize ∧ decodeBuffer 0 c3buf = Except.ok c3state :=
  ⟨by decide, by rfl⟩

/-- C3 amended: the decoder never checks the computed total size.  A buffer
can decode successfully only if it contains at least the fixed 1612-byte
prefix (header, full-capacity map array, allocator scalars, sample count),
and a buffer shorter than the fixed total size can decode successfully only
with a page sample shorter than the full 1000 entries; any failing read
throws an out-of-range error (never a dedicated truncation error), and the
stored state is assigned only after every read has succeeded. -/
theorem c3_short_buffer (now : Nat) (buf : List Nat) (st : MemoryState)
    (hshort : buf.length < totalBufferSize)
    (hok : decodeBuffer now buf = Except.ok st) :
    1612 ≤ buf.length ∧ st.pageAllocator.pages.length < MAX_RAT_SAMPLE := by
  have hsz : buf.length < 2612 := by
    have : totalBufferSize = 2612 := by rfl
    omega
  obtain ⟨limCnt, ratCnt, ramStart, _, hrat, _, _, _, _, _, hpag, _⟩ :=
    decodeBuffer_ok_inversion now buf st hok
  have h1612 : 1612 ≤ buf.length := by
    have := readLE_some_bound hrat
    omega
  refine ⟨h1612, ?_⟩
  rw [readPagesFrom_length buf ramStart _ _ _ hpag]
  by_cases hc : min ratCnt MAX_RAT_SAMPLE = 0
  · rw [hc]; simp [MAX_RAT_SAMPLE]
  · have hb := readPagesFrom_some_bound buf ramStart _ 0 _ (by omega) hpag
    have : min ratCnt MAX_RAT_SAMPLE ≤ MAX_RAT_SAMPLE := Nat.min_le_right _ _
    simp only [MAX_RAT_SAMPLE] at *
    omega

/-- Witness for `c3_short_buffer` at the concrete 1612-byte buffer. -/
theorem c3_short_buffer_witness :
    1612 ≤ c3buf.length ∧ c3state.pageAllocator.pages.length < MAX_RAT_SAMPLE :=
  c3_short_buffer 0 c3buf c3state (by decide) (by rfl)

/-- C8 counterexample: the decoder accepts a buffer publishing
`totalPageCount = 3`, `freePageCount = 5`, violating
`freePageCount ≤ totalPageCount`; the derived `usedPageCount` is `-2`. -/
theorem c8_counterexample :
    decodeBuffer 0 c8buf = Except.ok c8state ∧
    ¬ (c8state.pageAllocator.freePageCount ≤ c8state.pageAllocator.totalPageCount) ∧
    c8state.pageAllocator.usedPageCount < 0 :=
  ⟨by rfl, by decide, by decide⟩

/-- C8 amended: the decoder enforces no relation between the two counters; it
passes the wire values of `totalPageCount` and `freePageCount` through
unchanged and derives `usedPageCount = totalPageCount - freePageCount` as a
(possibly negative) integer, so a decoded state satisfies
`freePageCount ≤ totalPageCount` exactly when its `usedPageCount` is
non-negative, i.e. exactly when the guest published counters satisfying the
invariant. -/
theorem c8_counters_passthrough (now : Nat) (buf : List Nat) (st : MemoryState)
    (hok : decodeBuffer now buf = Except.ok st) :
    readLE buf 1592 8 = some st.pageAllocator.totalPageCount ∧
    readLE buf 1600 8 = some st.pageAllocator.freePageCount ∧
    st.pageAllocator.usedPageCount =
      (st.pageAllocator.totalPageCount : Int) - (st.pageAllocator.freePageCount : Int) ∧
    (st.pageAllocator.freePageCount ≤ st.pageAllocator.totalPageCount ↔
      0 ≤ st.pageAllocator.usedPageCount) := by
  obtain ⟨limCnt, ratCnt, ramStart, _, _, _, htot, hfree, hused, _, _, _⟩ :=
    decodeBuffer_ok_inversion now buf st hok
  refine ⟨htot, hfree, hused, ?_⟩
  rw [hused]
  omega

/-- Witness for `c8_counters_passthrough` at the concrete buffer `c8buf`. -/
theorem c8_counters_passthrough_witness :
    readLE c8buf 1592 8 = some c8state.pageAllocator.totalPageCount ∧
    readLE c8buf 1600 8 = some c8state.pageAllocator.freePageCount ∧
    c8state.pageAllocator.usedPageCount =
      (c8state.pageAllocator.totalPageCount : Int) -
        (c8state.pageAllocator.freePageCount : Int) ∧
    (c8state.pageAllocator.freePageCount ≤ c8state.pageAllocator.totalPageCount ↔
      0 ≤ c8state.pageAllocator.usedPageCount) :=
  c8_counters_passthrough 0 c8buf c8state (by rfl)

/-- QMP-variant module state with a cached buffer address, live polling. -/
def c4qs : QmpState :=
  { currentMemoryState := none, debugBufferAddress := some 4096,
    isLive := true, timerSet := true }

/-- C4 counterexample: in the QMP variant, a tick whose read yields a
bad-magic buffer does NOT pass silently — the catch block calls
`vscode.window.showErrorMessage` (part_008 line 202), surfacing a user-facing
error on that tick (contradicting the claim that both variants do nothing). -/
theorem c4_counterexample :
    (qmpTick 0 c4qs true none (some badMagicBuf)).2.showedError = true := by rfl

/-- C4 amended: on a BadMagic/NotReady tick neither variant stops polling and
neither changes the stored snapshot, and the shared-memory variant is fully
silent (retry next tick); but the QMP variant shows an error message on every
such tick rather than staying silent.  Concretely: a shared-memory tick whose
backing file is missing, or whose decode fails, returns the state unchanged
with no effects; a QMP tick whose decode fails returns the state unchanged
with `showedError` and nothing else. -/
theorem c4_not_ready_behaviour (now : Nat) (s : ShmState) (q : QmpState)
    (p : String) (a : Nat) (pa : Option String) (r : Option Nat)
    (fb qb : List Nat) (e1 e2 : DecodeError)
    (hp : s.shmemPath = some p) (hq : q.debugBufferAddress = some a)
    (hfb : decodeBuffer now fb = Except.error e1)
    (hqb : decodeBuffer now qb = Except.error e2) :
    shmTick now s pa false fb = (s, { showedError := false, published := false }) ∧
    shmTick now s pa true fb = (s, { showedError := false, published := false }) ∧
    qmpTick now q true r (some qb) = (q, { showedError := true, published := false }) := by
  refine ⟨?_, ?_, ?_⟩
  · simp [shmTick, hp, shmReadPhase]
  · simp [shmTick, hp, shmReadPhase, hfb]
  · simp [qmpTick, hq, qmpReadPhase, hqb]

/-- Witness for `c4_not_ready_behaviour` with a cached path/address and the
concrete bad-magic buffer. -/
theorem c4_not_ready_behaviour_witness :
    shmTick 0 { currentMemoryState := none, shmemPath := some "f", isLive := true,
                timerSet := true } none false badMagicBuf =
      ({ currentMemoryState := none, shmemPath := some "f", isLive := true,
         timerSet := true }, { showedError := false, published := false }) ∧
    shmTick 0 { currentMemoryState := none, shmemPath := some "f", isLive := true,
                timerSet := true } none true badMagicBuf =
      ({ currentMemoryState := none, shmemPath := some "f", isLive := true,
         timerSet := true }, { showedError := false, published := false }) ∧
    qmpTick 0 c4qs true none (some badMagicBuf) =
      (c4qs, { showedError := true, published := false }) :=
  c4_not_ready_behaviour 0 _ c4qs "f" 4096 none none badMagicBuf badMagicBuf
    (DecodeError.badMagic 0) (DecodeError.badMagic 0) rfl rfl (by rfl) (by rfl)

/-- C6 counterexample: two timer ticks with no intervening read completion
leave two reads in flight — the interval callback `() => requestMemoryData()`
(part_008 lines 131-133 / 1136-1139) starts a read unconditionally, so a tick
that fires while a read is outstanding is not skipped. -/
theorem c6_counterexample :
    pollRun true 0 [PollEvent.tick, PollEvent.tick] = 2 := by rfl

/-- C6 amended: ticks are never skipped and reads are never serialized: while
the interval timer is installed, every tick starts one more read regardless of
how many are outstanding (the module state keeps no in-flight flag), so after
`k` consecutive ticks with no completion `k` reads are in flight. -/
theorem c6_every_tick_reads (inFlight : Nat) (k : Nat) :
    pollStep true inFlight PollEvent.tick = inFlight + 1 ∧
    pollRun true inFlight (List.replicate k PollEvent.tick) = inFlight + k := by
  constructor
  · rfl
  · induction k generalizing inFlight with
    | zero => rfl
    | succ n ih =>
      have h2 : pollStep true inFlight PollEvent.tick = inFlight + 1 := rfl
      simp only [List.replicate, pollRun, h2]
      rw [ih (inFlight + 1)]
      omega

/-- State before symbol resolution: no cached address, polling live. -/
def c7s : QmpState :=
  { currentMemoryState := none, debugBufferAddress := none,
    isLive := true, timerSet := true }

/-- C7 counterexample: when symbol resolution fails, the tick shows an error
message but leaves the module state — including the live flag and the
installed timer — completely unchanged, so the next tick resolves again,
fails again and shows the error again: the error is surfaced on every tick,
not once, and polling never stops. -/
theorem c7_counterexample :
    (qmpTick 0 c7s true none none).2.showedError = true ∧
    (qmpTick 0 c7s true none none).1 = c7s ∧
    (qmpTick 0 ((qmpTick 0 c7s true none none).1) true none none).2.showedError = true := by
  decide

/-- C7 amended: a failed symbol resolution is not fatal and not cached: the
tick surfaces an error message (`showErrorMessage` in the catch block), the
state — live flag, timer, absent address, stored snapshot — is unchanged, and
the next tick retries resolution and surfaces the error again. -/
theorem c7_resolution_failure_retries (now : Nat) (s : QmpState)
    (rb : Option (List Nat)) (ha : s.debugBufferAddress = none) :
    qmpTick now s true none rb = (s, { showedError := true, published := false }) ∧
    (qmpTick now s true none rb).1.isLive = s.isLive ∧
    (qmpTick now s true none rb).1.timerSet = s.timerSet ∧
    (qmpTick now s true none rb).1.debugBufferAddress = none := by
  have h : qmpTick now s true none rb = (s, { showedError := true, published := false }) := by
    simp [qmpTick, ha]
  exact ⟨h, by rw [h], by rw [h], by rw [h]; exact ha⟩

/-- Witness for `c7_resolution_failure_retries` at the concrete state `c7s`. -/
theorem c7_resolution_failure_retries_witness :
    qmpTick 0 c7s true none none = (c7s, { showedError := true, published := false }) ∧
    (qmpTick 0 c7s true none none).1.isLive = c7s.isLive ∧
    (qmpTick 0 c7s true none none).1.timerSet = c7s.timerSet ∧
    (qmpTick 0 c7s true none none).1.debugBufferAddress = none :=
  c7_resolution_failure_retries 0 c7s none rfl

/-! ## Update publisher theorems -/

/-- Default used only as the `getD` fallback in statements about in-range
indices. -/
def dummyPage : MemoryPage :=
  { index := 0, address := "", size := 0, pageType := 0, pageTypeName := "" }

theorem updateCellsLoop_spec :
    ∀ (cs : List String) (ps : List MemoryPage) (i : Nat), cs.length = ps.length →
      (updateCellsLoop cs ps i).1 = ps.map (fun p => toString p.pageType) ∧
      (updateCellsLoop cs ps i).2 =
        (List.range' i ps.length).filter
          (fun j => cs.getD (j - i) "" != toString ((ps.getD (j - i) dummyPage).pageType)) := by
  intro cs
  induction cs with
  | nil =>
    intro ps i h
    cases ps with
    | nil => simp [updateCellsLoop, List.range']
    | cons p ps => simp at h
  | cons c cs ih =>
    intro ps i h
    cases ps with
    | nil => simp at h
    | cons p ps =>
      have hlen : cs.length = ps.length := by simpa using h
      obtain ⟨ih1, ih2⟩ := ih ps (i+1) hlen
      have hr : List.range' i (p :: ps).length =
          i :: List.range' (i+1) ps.length := by
        simp [List.range']
      have hcong :
          (List.range' (i+1) ps.length).filter
            (fun j => (c :: cs).getD (j - i) "" !=
              toString (((p :: ps).getD (j - i) dummyPage).pageType)) =
          (List.range' (i+1) ps.length).filter
            (fun j => cs.getD (j - (i+1)) "" !=
              toString ((ps.getD (j - (i+1)) dummyPage).pageType)) := by
        apply List.filter_congr
        intro j hj
        have hge : i + 1 ≤ j := by
          have := List.mem_range'_1.mp hj
          omega
        have hsub : j - i = (j - (i+1)) + 1 := by omega
        rw [hsub]
        simp [List.getD_cons_succ]
      constructor
      · simp only [updateCellsLoop]
        by_cases hc : (c != toString p.pageType) = true
        · simp only [if_pos hc, List.map, ih1]
        · have hceq : c = toString p.pageType := by
            simpa using hc
          rw [if_neg hc]
          simp only [List.map, ih1, hceq]
      · simp only [updateCellsLoop]
        rw [hr]
        simp only [List.filter_cons, Nat.sub_self, List.getD_cons_zero]
        rw [hcong]
        by_cases hc : (c != toString p.pageType) = true
        · simp only [if_pos hc, ih2]
        · simp only [if_neg hc, ih2]

/-- A two-page snapshot used as the publisher's input. -/
def c5snap : MemoryState :=
  { limineMemoryMap := [],
    pageAllocator :=
      { ramStart := "0x0", heapEnd := "0x0", ratLocation := "0x0",
        ramSize := 8192, totalPageCount := 2, freePageCount := 1,
        usedPageCount := 1,
        pages :=
          [{ index := 0, address := "0x0", size := 4096, pageType := 0,
             pageTypeName := "Empty" },
           { index := 1, address := "0x1000", size := 4096, pageType := 7,
             pageTypeName := "HeapLarge" }] },
    lastUpdated := 5 }

/-- C5 counterexample: on a subsequent publish (the panel HTML already
contains the grid marker) the extension posts the ENTIRE snapshot: the message
payload is the full `MemoryState` carrying every page (here both pages), not a
patch restricted to changed indices — the extension side retains no
last-published snapshot to diff against at all. -/
theorem c5_counterexample :
    (updateWebview (some true) (some c5snap)).1 = PublishOutput.postData c5snap ∧
    c5snap.pageAllocator.pages.length = 2 :=
  ⟨rfl, rfl⟩

/-- C5 amended: the publisher is two-mode, but the second mode is not a patch
message.  With no panel nothing is emitted; on the first publish of a display
session (panel HTML without the grid marker) the full viewer HTML is rendered;
on every subsequent publish the entire snapshot is posted to the webview, and
it is the webview script that applies it incrementally: with an unchanged cell
count it rewrites exactly the cells whose page-type differs from the DOM's
recorded type (and the new cell types always equal the incoming pages'
types). -/
theorem c5_publish_modes (st : MemoryState) (cells : List String)
    (pages : List MemoryPage) (h : cells.length = pages.length) :
    updateWebview none (some st) = (PublishOutput.nothing, none) ∧
    updateWebview (some false) (some st) = (PublishOutput.fullRender st, some true) ∧
    updateWebview (some true) (some st) = (PublishOutput.postData st, some true) ∧
    (updateMemoryData cells pages).1 = pages.map (fun p => toString p.pageType) ∧
    (updateMemoryData cells pages).2 =
      (List.range pages.length).filter
        (fun j => cells.getD j "" != toString ((pages.getD j dummyPage).pageType)) := by
  have hne : ¬((cells.length != pages.length) = true) := by simp [h]
  refine ⟨rfl, rfl, rfl, ?_, ?_⟩
  · unfold updateMemoryData
    rw [if_neg hne]
    exact (updateCellsLoop_spec cells pages 0 h).1
  · unfold updateMemoryData
    rw [if_neg hne, (updateCellsLoop_spec cells pages 0 h).2, List.range_eq_range']
    apply List.filter_congr
    intro j hj
    simp

def c5wCells : List String := ["0", "3"]

def c5wPages : List MemoryPage :=
  [{ index := 0, address := "0x0", size := 4096, pageType := 0,
     pageTypeName := "Empty" },
   { index := 1, address := "0x1000", size := 4096, pageType := 5,
     pageTypeName := "HeapMedium" }]

/-- Witness for `c5_publish_modes`: two DOM cells of types "0","3", incoming
pages of types 0,5 — only index 1 changes. -/
theorem c5_publish_modes_witness :
    updateWebview none (some c5snap) = (PublishOutput.nothing, none) ∧
    updateWebview (some false) (some c5snap) = (PublishOutput.fullRender c5snap, some true) ∧
    updateWebview (some true) (some c5snap) = (PublishOutput.postData c5snap, some true) ∧
    (updateMemoryData c5wCells c5wPages).1 = c5wPages.map (fun p => toString p.pageType) ∧
    (updateMemoryData c5wCells c5wPages).2 =
      (List.range c5wPages.length).filter
        (fun j => c5wCells.getD j "" != toString ((c5wPages.getD j dummyPage).pageType)) :=
  c5_publish_modes c5snap c5wCells c5wPages rfl

/-! ## Newline framing lemmas -/

/-- JavaScript `split` never returns an empty array. -/
theorem splitNl_ne_nil : ∀ l : List Char, splitNl l ≠ [] := by
  intro l
  cases l with
  | nil => simp [splitNl]
  | cons c rest =>
    simp only [splitNl]
    split
    · simp
    · split <;> simp

/-- No fragment produced by the split contains a newline. -/
theorem splitNl_no_newline : ∀ l : List Char, ∀ p ∈ splitNl l, '\n' ∉ p := by
  intro l
  induction l with
  | nil =>
    intro p hp
    simp [splitNl] at hp
    simp [hp]
  | cons c rest ih =>
    intro p hp
    simp only [splitNl] at hp
    by_cases hc : c = '\n'
    · rw [if_pos hc] at hp
      rcases List.mem_cons.mp hp with h | h
      · simp [h]
      · exact ih p h
    · rw [if_neg hc] at hp
      cases hs : splitNl rest with
      | nil => exact absurd hs (splitNl_ne_nil rest)
      | cons l0 ls =>
        rw [hs] at hp
        rcases List.mem_cons.mp hp with h | h
        · subst h
          intro hmem
          rcases List.mem_cons.mp hmem with h1 | h1
          · exact hc h1.symm
          · exact ih l0 (by rw [hs]; exact List.mem_cons_self _ _) h1
        · exact ih p (by rw [hs]; exact List.mem_cons_of_mem _ h)

/-- A newline-free text splits into exactly itself. -/
theorem splitNl_singleton : ∀ t : List Char, '\n' ∉ t → splitNl t = [t] := by
  intro t
  induction t with
  | nil => intro _; rfl
  | cons c rest ih =>
    intro h
    have hc : c ≠ '\n' := fun hcc => h (by rw [hcc]; exact List.mem_cons_self _ _)
    have hrest : '\n' ∉ rest := fun hm => h (List.mem_cons_of_mem _ hm)
    simp only [splitNl, if_neg hc, ih hrest]

/-- Joining with newlines, the inverse of `splitNl`. -/
def joinNl : List (List Char) → List Char
  | [] => []
  | [x] => x
  | x :: xs => x ++ '\n' :: joinNl xs

theorem joinNl_cons₂ (x y : List Char) (ys : List (List Char)) :
    joinNl (x :: y :: ys) = x ++ '\n' :: joinNl (y :: ys) := by
  rfl

/-- Splitting loses nothing: joining the fragments with newlines restores the
input. -/
theorem joinNl_splitNl : ∀ l : List Char, joinNl (splitNl l) = l := by
  intro l
  induction l with
  | nil => rfl
  | cons c rest ih =>
    by_cases hc : c = '\n'
    · simp only [splitNl, if_pos hc]
      cases hs : splitNl rest with
      | nil => exact absurd hs (splitNl_ne_nil rest)
      | cons s ss =>
        rw [joinNl_cons₂, ← hs, ih, hc]
        simp
    · simp only [splitNl, if_neg hc]
      cases hs : splitNl rest with
      | nil => exact absurd hs (splitNl_ne_nil rest)
      | cons s ss =>
        cases ss with
        | nil =>
          have hj : joinNl [s] = rest := by rw [← hs, ih]
          simp only [joinNl] at hj
          simp [joinNl, hj]
        | cons m ms =>
          rw [joinNl_cons₂]
          have hj : joinNl (s :: m :: ms) = rest := by rw [← hs, ih]
          rw [joinNl_cons₂] at hj
          simp only [List.cons_append, List.append_assoc] at hj ⊢
          rw [← hj]

/-- How `splitNl` distributes over concatenation: the last fragment of the
first part merges with the first fragment of the second part. -/
theorem splitNl_append : ∀ a b : List Char,
    splitNl (a ++ b) = (splitNl a).dropLast ++
      ((splitNl a).getLastD [] ++ (splitNl b).headD []) :: (splitNl b).tail := by
  intro a
  induction a with
  | nil =>
    intro b
    cases hb : splitNl b with
    | nil => exact absurd hb (splitNl_ne_nil b)
    | cons h t => simp [splitNl, hb]
  | cons c rest ih =>
    intro b
    by_cases hc : c = '\n'
    · simp only [List.cons_append, splitNl, if_pos hc, List.append_eq]
      rw [ih b]
      cases hs : splitNl rest with
      | nil => exact absurd hs (splitNl_ne_nil rest)
      | cons s ss =>
        simp [List.getLastD_cons, List.dropLast_cons₂]
    · simp only [List.cons_append, splitNl, if_neg hc, List.append_eq]
      rw [ih b]
      cases hs : splitNl rest with
      | nil => exact absurd hs (splitNl_ne_nil rest)
      | cons s ss =>
        cases ss with
        | nil =>
          simp [List.getLastD_cons]
        | cons m ms =>
          simp [List.getLastD_cons, List.dropLast_cons₂]

theorem getLastD_mem {α : Type} : ∀ (l : List α) (d : α), l ≠ [] → l.getLastD d ∈ l := by
  intro l
  induction l with
  | nil => intro d h; exact absurd rfl h
  | cons a l ih =>
    intro d _
    rw [List.getLastD_cons]
    cases l with
    | nil => simp [List.getLastD]
    | cons b l2 => exact List.mem_cons_of_mem _ (ih a (by simp))

theorem dropLast_append_cons {α : Type} (l1 : List α) (x : α) (l2 : List α) :
    (l1 ++ x :: l2).dropLast = l1 ++ (x :: l2).dropLast := by
  rw [List.dropLast_append]
  simp

theorem getLastD_append_cons {α : Type} :
    ∀ (l1 : List α) (x : α) (l2 : List α) (d : α),
      (l1 ++ x :: l2).getLastD d = (x :: l2).getLastD d := by
  intro l1
  induction l1 with
  | nil => intro x l2 d; rfl
  | cons a l1 ih =>
    intro x l2 d
    rw [List.cons_append, List.getLastD_cons, ih, List.getLastD_cons, List.getLastD_cons]

theorem dropLast_append_getLastD {α : Type} :
    ∀ (l : List α) (d : α), l ≠ [] → l.dropLast ++ [l.getLastD d] = l := by
  intro l
  induction l with
  | nil => intro d h; exact absurd rfl h
  | cons a l ih =>
    intro d _
    cases l with
    | nil => rfl
    | cons b l2 =>
      rw [List.dropLast_cons₂, List.getLastD_cons, List.cons_append, ih a (by simp)]

/-- The text retained after a `data` event contains no newline: it is exactly
the (incomplete) text after the last newline seen so far. -/
theorem processChunk_retained_no_newline (b c : List Char) :
    '\n' ∉ (processChunk b c).1 := by
  unfold processChunk
  exact splitNl_no_newline (b ++ c) _ (getLastD_mem _ _ (splitNl_ne_nil _))

/-- Nothing is lost or duplicated by the framing: the dispatched lines plus
the retained buffer reconstruct all text received. -/
theorem processChunk_reconstruct (b c : List Char) :
    joinNl ((processChunk b c).2 ++ [(processChunk b c).1]) = b ++ c := by
  unfold processChunk
  rw [dropLast_append_getLastD _ _ (splitNl_ne_nil _), joinNl_splitNl]

/-- Chunking is irrelevant: processing two chunks emits exactly the lines of
processing their concatenation, with the same retained buffer — so a response
split across `data` events is dispatched exactly once, when its newline
arrives. -/
theorem processChunk_append (b c1 c2 : List Char) :
    (processChunk (processChunk b c1).1 c2).1 = (processChunk b (c1 ++ c2)).1 ∧
    (processChunk b c1).2 ++ (processChunk (processChunk b c1).1 c2).2 =
      (processChunk b (c1 ++ c2)).2 := by
  unfold processChunk
  have hL : '\n' ∉ (splitNl (b ++ c1)).getLastD [] :=
    splitNl_no_newline _ _ (getLastD_mem _ _ (splitNl_ne_nil _))
  have h2 : splitNl ((splitNl (b ++ c1)).getLastD [] ++ c2) =
      ((splitNl (b ++ c1)).getLastD [] ++ (splitNl c2).headD []) :: (splitNl c2).tail := by
    rw [splitNl_append, splitNl_singleton _ hL]
    simp [List.getLastD_cons]
  have h3 : splitNl (b ++ (c1 ++ c2)) =
      (splitNl (b ++ c1)).dropLast ++
        ((splitNl (b ++ c1)).getLastD [] ++ (splitNl c2).headD []) :: (splitNl c2).tail := by
    rw [← List.append_assoc, splitNl_append]
  constructor
  · rw [h2, h3, getLastD_append_cons]
  · rw [h2, h3, dropLast_append_cons]

/-- C9: only complete newline-terminated lines are dispatched; the text after
the last newline is retained and prepended to the next chunk, so a JSON
response split across `data` events is parsed exactly once (processing chunk
by chunk emits the same lines as processing the concatenation, nothing is
lost or duplicated, and the retained fragment contains no newline); and a
line that is not valid JSON is skipped leaving the pending-request table
completely unchanged. -/
theorem c9_response_framing {α : Type} (b c1 c2 bb cc : List Char)
    (pending : List (Nat × α)) :
    ((processChunk (processChunk b c1).1 c2).1 = (processChunk b (c1 ++ c2)).1 ∧
     (processChunk b c1).2 ++ (processChunk (processChunk b c1).1 c2).2 =
       (processChunk b (c1 ++ c2)).2) ∧
    '\n' ∉ (processChunk bb cc).1 ∧
    joinNl ((processChunk bb cc).2 ++ [(processChunk bb cc).1]) = bb ++ cc ∧
    handleLine pending ParsedLine.invalid = (pending, none) :=
  ⟨processChunk_append b c1 c2, processChunk_retained_no_newline bb cc,
   processChunk_reconstruct bb cc, rfl⟩

/-! ## Pending-request table lemmas -/

theorem keys_filter_ne {α : Type} (id : Nat) :
    ∀ l : List (Nat × α), (l.filter (fun e => e.1 != id)).map Prod.fst =
      (l.map Prod.fst).filter (fun k => k != id) := by
  intro l
  induction l with
  | nil => rfl
  | cons e l ih =>
    by_cases he : (e.1 != id) = true
    · simp only [List.filter_cons, he, if_true, List.map_cons, ih]
    · simp only [List.filter_cons, he, if_false, List.map_cons, ih]
      simp
      exact ih

theorem lookup_eq_none_iff {α : Type} (id : Nat) :
    ∀ l : List (Nat × α), l.lookup id = none ↔ id ∉ l.map Prod.fst := by
  intro l
  induction l with
  | nil => simp [List.lookup]
  | cons e l ih =>
    cases e with
    | mk k v =>
      by_cases he : id = k
      · subst he
        simp [List.lookup]
      · have hb : (id == k) = false := by simpa using he
        simp [List.lookup, hb, ih, he]

theorem lookup_filter_self {α : Type} (id : Nat) (l : List (Nat × α)) :
    (l.filter (fun e => e.1 != id)).lookup id = none := by
  rw [lookup_eq_none_iff, keys_filter_ne]
  intro hmem
  have hm := List.mem_filter.mp hmem
  simp at hm

theorem lookup_filter_other {α : Type} (id j : Nat) (hne : j ≠ id) :
    ∀ l : List (Nat × α), (l.filter (fun e => e.1 != id)).lookup j = l.lookup j := by
  intro l
  induction l with
  | nil => rfl
  | cons e l ih =>
    cases e with
    | mk k v =>
      by_cases hk : (k != id) = true
      · simp only [List.filter_cons, hk, if_true, List.lookup, ih]
      · have hki : k = id := by simpa using hk
        subst hki
        have hjk : (j == k) = false := by simpa using hne
        simp only [List.filter_cons, hk, if_false, List.lookup, hjk, ih]
        simp [List.lookup, hjk, ih]

theorem lookup_some_mem {α : Type} {id : Nat} {l : List (Nat × α)} {v : α}
    (h : l.lookup id = some v) : id ∈ l.map Prod.fst := by
  by_contra hmem
  rw [← lookup_eq_none_iff] at hmem
  rw [hmem] at h
  cases h

/-- After completing (and so deleting) entry `id`, the remaining run can never
complete `id` again: its completions come from the filtered table or from
fresh ids. -/
theorem completions_after_removal {α : Type} (s : ClientState α) (id : Nat) (bl : Bool)
    (es : List (ClientEvent α))
    (h1 : (s.pending.map Prod.fst).Nodup)
    (h2 : ∀ i ∈ s.pending.map Prod.fst, i < s.nextId)
    (hmem : id ∈ s.pending.map Prod.fst)
    (IH : ∀ (s2 : ClientState α),
      (s2.pending.map Prod.fst).Nodup →
      (∀ i ∈ s2.pending.map Prod.fst, i < s2.nextId) →
      ((clientRun s2 es).2.map Prod.fst).Nodup ∧
      (∀ i ∈ (clientRun s2 es).2.map Prod.fst,
        i ∈ s2.pending.map Prod.fst ∨ s2.nextId ≤ i)) :
    (((id, bl) ::
        (clientRun { s with pending := s.pending.filter (fun e => e.1 != id) } es).2).map
          Prod.fst).Nodup ∧
    (∀ i ∈ ((id, bl) ::
        (clientRun { s with pending := s.pending.filter (fun e => e.1 != id) } es).2).map
          Prod.fst,
      i ∈ s.pending.map Prod.fst ∨ s.nextId ≤ i) := by
  have hn2 : ((s.pending.filter (fun e => e.1 != id)).map Prod.fst).Nodup := by
    rw [keys_filter_ne]
    exact h1.filter _
  have hb2 : ∀ i ∈ (s.pending.filter (fun e => e.1 != id)).map Prod.fst, i < s.nextId := by
    intro i hi
    apply h2
    rw [keys_filter_ne] at hi
    exact (List.mem_filter.mp hi).1
  obtain ⟨ihn, ihm⟩ :=
    IH { s with pending := s.pending.filter (fun e => e.1 != id) } hn2 hb2
  constructor
  · simp only [List.map_cons]
    refine List.nodup_cons.mpr ⟨?_, ihn⟩
    intro hid
    rcases ihm id hid with hI | hI
    · rw [keys_filter_ne] at hI
      have hne := (List.mem_filter.mp hI).2
      simp at hne
    · have hI2 : s.nextId ≤ id := hI
      exact absurd (h2 id hmem) (by omega)
  · intro i hi
    simp only [List.map_cons, List.mem_cons] at hi
    rcases hi with hi | hi
    · subst hi
      exact Or.inl hmem
    · rcases ihm i hi with hI | hI
      · rw [keys_filter_ne] at hI
        exact Or.inl ((List.mem_filter.mp hI).1)
      · exact Or.inr hI

/-- Over any event sequence, every request id is completed (resolved or
rejected) at most once. -/
theorem clientRun_completions {α : Type} :
    ∀ (events : List (ClientEvent α)) (s : ClientState α),
      (s.pending.map Prod.fst).Nodup →
      (∀ i ∈ s.pending.map Prod.fst, i < s.nextId) →
      ((clientRun s events).2.map Prod.fst).Nodup ∧
      (∀ i ∈ (clientRun s events).2.map Prod.fst,
        i ∈ s.pending.map Prod.fst ∨ s.nextId ≤ i) := by
  intro events
  induction events with
  | nil =>
    intro s h1 h2
    constructor
    · simp [clientRun]
    · intro i hi
      simp [clientRun] at hi
  | cons e es ih =>
    intro s h1 h2
    cases e with
    | send a =>
      simp only [clientRun, clientStep, List.nil_append]
      have hkeys : ((s.pending ++ [(s.nextId, a)]).map Prod.fst) =
          s.pending.map Prod.fst ++ [s.nextId] := by simp
      have hnodup : ((s.pending ++ [(s.nextId, a)]).map Prod.fst).Nodup := by
        rw [hkeys, List.nodup_append]
        refine ⟨h1, List.nodup_singleton _, ?_⟩
        intro x hx hy
        simp only [List.mem_singleton] at hy
        subst hy
        exact absurd (h2 _ hx) (by omega)
      have hb : ∀ i ∈ (s.pending ++ [(s.nextId, a)]).map Prod.fst, i < s.nextId + 1 := by
        rw [hkeys]
        intro i hi
        rcases List.mem_append.mp hi with h | h
        · exact Nat.lt_succ_of_lt (h2 i h)
        · simp only [List.mem_singleton] at h
          omega
      obtain ⟨ihn, ihm⟩ :=
        ih { s with nextId := s.nextId + 1, pending := s.pending ++ [(s.nextId, a)] }
          hnodup hb
      refine ⟨ihn, ?_⟩
      intro i hi
      rcases ihm i hi with hI | hI
      · rw [hkeys] at hI
        rcases List.mem_append.mp hI with h | h
        · exact Or.inl h
        · simp only [List.mem_singleton] at h
          omega
      · have hI2 : s.nextId + 1 ≤ i := hI
        exact Or.inr (by omega)
    | line p =>
      cases p with
      | ret id =>
        simp only [clientRun, clientStep, handleLine]
        cases hl : s.pending.lookup id with
        | none =>
          simp only [Option.toList, List.nil_append]
          exact ih s h1 h2
        | some v =>
          simp only [Option.toList, List.singleton_append]
          exact completions_after_removal s id true es h1 h2 (lookup_some_mem hl) ih
      | err id =>
        simp only [clientRun, clientStep, handleLine]
        cases hl : s.pending.lookup id with
        | none =>
          simp only [Option.toList, List.nil_append]
          exact ih s h1 h2
        | some v =>
          simp only [Option.toList, List.singleton_append]
          exact completions_after_removal s id false es h1 h2 (lookup_some_mem hl) ih
      | other =>
        simp only [clientRun, clientStep, handleLine, Option.toList, List.nil_append]
        exact ih s h1 h2
      | invalid =>
        simp only [clientRun, clientStep, handleLine, Option.toList, List.nil_append]
        exact ih s h1 h2
    | timeout id =>
      simp only [clientRun, clientStep, timeoutFire]
      cases hl : s.pending.lookup id with
      | none =>
        simp only [Option.toList, List.nil_append]
        exact ih s h1 h2
      | some v =>
        simp only [Option.toList, List.singleton_append]
        exact completions_after_removal s id false es h1 h2 (lookup_some_mem hl) ih

/-- C10: each pending request is completed at most once — over any event
sequence from a fresh connection the completion list never repeats an id;
once a request's 10-second timeout has fired, the id is no longer in the
table, and a later response carrying it (or any id with no pending entry) is
silently discarded leaving the state — table included — unchanged; a timeout
never changes the `connected` flag (the connection is not torn down) and
leaves every other pending entry untouched. -/
theorem c10_at_most_once {α : Type} (events : List (ClientEvent α))
    (s : ClientState α) (id : Nat) (hstale : s.pending.lookup id = none) :
    ((clientRun (initialClient α) events).2.map Prod.fst).Nodup ∧
    clientStep s (ClientEvent.line (ParsedLine.ret id)) = (s, []) ∧
    clientStep s (ClientEvent.line (ParsedLine.err id)) = (s, []) ∧
    (∀ (s2 : ClientState α) (id2 : Nat),
      (clientStep s2 (ClientEvent.timeout id2)).1.connected = s2.connected ∧
      (clientStep s2 (ClientEvent.timeout id2)).1.pending.lookup id2 = none ∧
      (∀ j, j ≠ id2 →
        (clientStep s2 (ClientEvent.timeout id2)).1.pending.lookup j =
          s2.pending.lookup j)) := by
  refine ⟨?_, ?_, ?_, ?_⟩
  · exact (clientRun_completions events (initialClient α)
      (by simp [initialClient]) (by simp [initialClient])).1
  · simp [clientStep, handleLine, hstale]
  · simp [clientStep, handleLine, hstale]
  · intro s2 id2
    refine ⟨?_, ?_, ?_⟩
    · cases hl : s2.pending.lookup id2 <;> simp [clientStep, timeoutFire, hl]
    · cases hl : s2.pending.lookup id2 with
      | none => simp [clientStep, timeoutFire, hl]
      | some v => simp [clientStep, timeoutFire, hl, lookup_filter_self]
    · intro j hj
      cases hl : s2.pending.lookup id2 with
      | none => simp [clientStep, timeoutFire, hl]
      | some v => simp [clientStep, timeoutFire, hl, lookup_filter_other id2 j hj]

/-- A connected client with two pending requests (ids 1 and 2). -/
def c10s : ClientState Nat :=
  { nextId := 3, pending := [(1, 0), (2, 0)], connected := true }

/-- Witness for `c10_at_most_once`: concrete event trace send, response to 1,
timeout of 1; stale id 7. -/
theorem c10_at_most_once_witness :
    ((clientRun (initialClient Nat)
        [ClientEvent.send 0, ClientEvent.line (ParsedLine.ret 1),
         ClientEvent.timeout 1]).2.map Prod.fst).Nodup ∧
    clientStep c10s (ClientEvent.line (ParsedLine.ret 7)) = (c10s, []) ∧
    clientStep c10s (ClientEvent.line (ParsedLine.err 7)) = (c10s, []) ∧
    (∀ (s2 : ClientState Nat) (id2 : Nat),
      (clientStep s2 (ClientEvent.timeout id2)).1.connected = s2.connected ∧
      (clientStep s2 (ClientEvent.timeout id2)).1.pending.lookup id2 = none ∧
      (∀ j, j ≠ id2 →
        (clientStep s2 (ClientEvent.timeout id2)).1.pending.lookup j =
          s2.pending.lookup j)) :=
  c10_at_most_once
    [ClientEvent.send 0, ClientEvent.line (ParsedLine.ret 1), ClientEvent.timeout 1]
    c10s 7 (by rfl)
